import Mathlib

/-!
Verification development for the Agentic-AI-LangGraph examples repository.

Three components carry actual decision logic and are embedded here:

* the multi-dimension essay evaluator (`5_langgraph.py`): score extraction
  from model responses, the fan-out/join workflow graph, per-node state
  updates, and aggregation (average score);
* the streaming response normalizer (`chatbot2.0/langgraph_backend.py`):
  chunk text extraction, the keyword-retry wrapper, and the `chat_stream`
  fallback cascade;
* the chat-history save logic of `chatbot2.0/streamlit_frontend.py`.

External collaborators (the LLM transport, the `json` library, the `str`
builtin) are modelled as oracles or by small faithful stand-ins; Python
numbers are modelled exactly (`Nat`/`Int`/`ℚ`), and Python strings as Lean
`String`s (sequences of unicode code points).

The file is organised as definitions first, then theorems.
-/

namespace AgenticAI

/-! # Definitions -/

/-! ## Score extraction (`5_langgraph.py`, `evaluate_essay_dimension`)

The code runs the search `Score:\s*(\d+)/10` with `re.IGNORECASE` on the
response content and, on a match, applies `int` to the first group;
otherwise the score stays at the default `5`.  We embed the regex directly:
the pattern is a case-insensitive literal `Score:`, then greedy whitespace,
then a maximal nonempty digit run, then the literal `/10`; `re.search`
finds the leftmost position where this matches.  (Greediness note: since
`\s`, `\d` and the literal `/` are pairwise disjoint character classes,
backtracking can never produce a match that the maximal-munch reading
misses.) -/

/-- The `\s` class of the `re` module, restricted to its ASCII members
(space, tab, newline, carriage return, vertical tab, form feed). -/
def isPySpace (c : Char) : Bool :=
  c = ' ' || c = '\t' || c = '\n' || c = '\r' || c = '\x0b' || c = '\x0c'

/-- Case-insensitive character comparison, as `re.IGNORECASE` uses on the
ASCII literal `Score:`. -/
def charCIEq (a b : Char) : Bool :=
  a.toLower = b.toLower

/-- Match a literal (case-insensitively) at the head of `cs`; on success
return the rest of the input. -/
def matchLitCI : List Char → List Char → Option (List Char)
  | [], cs => some cs
  | _ :: _, [] => none
  | p :: ps, c :: cs => if charCIEq p c then matchLitCI ps cs else none

/-- Value of a digit run, as computed by the `int` builtin on a digit
string. -/
def digitsToNat (ds : List Char) : Nat :=
  ds.foldl (fun n c => n * 10 + (c.toNat - '0'.toNat)) 0

/-- Try to match `Score:\s*(\d+)/10` (case-insensitive) anchored at the head
of `cs`; on success return the integer value of the captured digit group. -/
def matchScoreAt (cs : List Char) : Option Nat :=
  match matchLitCI "Score:".data cs with
  | none => none
  | some r1 =>
    let r2 := r1.dropWhile isPySpace
    let ds := r2.takeWhile Char.isDigit
    match ds, r2.dropWhile Char.isDigit with
    | [], _ => none
    | _ :: _, '/' :: '1' :: '0' :: _ => some (digitsToNat ds)
    | _ :: _, _ => none

/-- `re.search`: try the anchored match at each position, leftmost first. -/
def searchScore : List Char → Option Nat
  | [] => matchScoreAt []
  | c :: cs =>
    match matchScoreAt (c :: cs) with
    | some v => some v
    | none => searchScore cs

/-- The score-extraction logic of `evaluate_essay_dimension`: start from the
default `5`; if the regex matches, replace it with the matched integer.
(The `int` call on a `\d+` capture cannot raise, so the surrounding
`try/except` is dead and extraction is total.) -/
def extract_score (content : String) : Nat :=
  (searchScore content.data).getD 5

/-! ## Essay evaluation workflow (`5_langgraph.py`)

The compiled graph has four executable nodes; `START` fans out to the three
dimension evaluators and `final_evaluation` has all three as predecessors
(the `graph.add_edge` calls).  The runtime executes each node once, a node
becoming eligible only when all its predecessors have completed; we
quantify over every such execution order ("trace").  The LLM transport is
an oracle `llm : String → String` mapping a prompt to the `.content` of the
response. -/

inductive GNode where
  | evaluate_language
  | evaluate_analysis
  | evaluate_thought
  | final_evaluation
deriving DecidableEq, Repr

/-- All executable nodes of the compiled graph (the `graph.add_node`
calls). -/
def allNodes : List GNode :=
  [.evaluate_language, .evaluate_analysis, .evaluate_thought, .final_evaluation]

/-- Predecessors induced by the `graph.add_edge` calls; edges from `START`
are dropped (a node with no listed predecessor is triggered at start). -/
def preds : GNode → List GNode
  | .final_evaluation => [.evaluate_language, .evaluate_analysis, .evaluate_thought]
  | _ => []

/-- The `UPSCState` TypedDict.  Channels that a node may not have written
yet are `Option`; `individual_scores` is the `Annotated` list channel
merged with `operator.add` (list concatenation).  Scores are naturals: the
regex digit group is nonnegative.  `avg_score` is a Python float, modelled
exactly as a rational. -/
structure UPSCState where
  essay : String
  language_feedback : Option String := none
  analysis_feedback : Option String := none
  clarity_feedback : Option String := none
  overall_feedback : Option String := none
  individual_scores : List Nat := []
  avg_score : Option ℚ := none
deriving DecidableEq, Repr

/-- The prompt template of `evaluate_essay_dimension`, with the two
placeholders substituted (as `.format` does). -/
def dimensionPrompt (dimension essay : String) : String :=
  "\n    Evaluate the " ++ dimension ++
  " quality of the following essay and provide feedback.\n    Also assign a score out of 10 at the end with \"Score: X/10\".\n\n    ESSAY:\n    "
  ++ essay ++
  "\n\n    Please provide detailed feedback focusing on " ++ dimension ++
  " aspects.\n    "

/-- `evaluate_essay_dimension`: one generation call, then score
extraction; returns `(content, score)`. -/
def evaluate_essay_dimension (llm : String → String) (essay dimension : String) :
    String × Nat :=
  let content := llm (dimensionPrompt dimension essay)
  (content, extract_score content)

/-- The aggregation prompt built by `final_evaluation` (missing feedbacks
render as the empty string via `state.get`). -/
def finalPrompt (s : UPSCState) : String :=
  "Based on the following feedback, create a summarized overall feedback.\n\n"
  ++ "Language feedback: " ++ s.language_feedback.getD "" ++ "\n"
  ++ "Depth of analysis feedback: " ++ s.analysis_feedback.getD "" ++ "\n"
  ++ "Clarity of thought feedback: " ++ s.clarity_feedback.getD "" ++ "\n\n"
  ++ "Please provide a comprehensive overall evaluation and final score assessment."

/-- The average in `final_evaluation`: `sum(scores) / len(scores)` when the
collection is truthy, else `0.0` (the preceding `or []` maps a falsy empty
list to an empty list, which the guard catches identically). -/
def averageOf (scores : List Nat) : ℚ :=
  if scores = [] then 0 else (scores.sum : ℚ) / (scores.length : ℚ)

/-- One node execution followed by the channel merge: plain channels are
overwritten, `individual_scores` is extended (`operator.add`). -/
def runNode (llm : String → String) (s : UPSCState) : GNode → UPSCState
  | .evaluate_language =>
    let r := evaluate_essay_dimension llm s.essay "language"
    { s with language_feedback := some r.1,
             individual_scores := s.individual_scores ++ [r.2] }
  | .evaluate_analysis =>
    let r := evaluate_essay_dimension llm s.essay "depth of analysis"
    { s with analysis_feedback := some r.1,
             individual_scores := s.individual_scores ++ [r.2] }
  | .evaluate_thought =>
    let r := evaluate_essay_dimension llm s.essay "clarity of thought"
    { s with clarity_feedback := some r.1,
             individual_scores := s.individual_scores ++ [r.2] }
  | .final_evaluation =>
    { s with overall_feedback := some (llm (finalPrompt s)),
             avg_score := some (averageOf s.individual_scores) }

/-- Initial state of a workflow invocation on an essay. -/
def initState (essay : String) : UPSCState := { essay := essay }

/-- Run a whole execution order from the initial state. -/
def runTrace (llm : String → String) (essay : String) (t : List GNode) : UPSCState :=
  t.foldl (runNode llm) (initState essay)

/-- Scheduler validity: each node runs at most once and only once all its
predecessors have run (`done` holds the already-executed nodes). -/
def validFrom (done : List GNode) : List GNode → Bool
  | [] => true
  | n :: rest =>
    decide (n ∉ done) && decide (∀ p ∈ preds n, p ∈ done) && validFrom (n :: done) rest

/-- A complete run: a valid execution order in which every node executed. -/
def completeTrace (t : List GNode) : Bool :=
  validFrom [] t && decide (∀ n ∈ allNodes, n ∈ t)

/-- A fixed sequential complete trace (the reference behavior runs the
dimensions sequentially). -/
def seqTrace : List GNode :=
  [.evaluate_language, .evaluate_analysis, .evaluate_thought, .final_evaluation]

/-- Dimension-evaluator nodes (the ones that append a score). -/
def isDimNode : GNode → Bool
  | .final_evaluation => false
  | _ => true

/-! ## Streaming response normalizer (`chatbot2.0/langgraph_backend.py`)

Inputs to the normalizer are heterogeneous Python values: strings,
mappings, SDK response objects with attributes, iterables, or objects
exposing a callable `stream` method.  `PyVal` captures the shapes the code
inspects; object methods are folded into the dedicated `streamer`
constructor (a non-iterable object whose `stream()` yields a fixed chunk
list), and the LLM transport into an explicit client record of fallible
calls. -/

inductive PyVal where
  | none
  | str (s : String)
  | int (n : Int)
  | bool (b : Bool)
  | pylist (xs : List PyVal)
  | dict (kvs : List (String × PyVal))
  | obj (attrs : List (String × PyVal))
  | streamer (xs : List PyVal)

/-- JSON-serializable primitives, the target of `_to_primitive`. -/
inductive Prim where
  | null
  | str (s : String)
  | int (n : Int)
  | bool (b : Bool)
  | arr (xs : List Prim)
  | dict (kvs : List (String × Prim))

/-- `needle` occurs at the head of `hay`. -/
def isPrefixB : List Char → List Char → Bool
  | [], _ => true
  | _ :: _, [] => false
  | a :: as, b :: bs => a = b && isPrefixB as bs

/-- Substring containment on char lists (the `in` operator on strings). -/
def containsSub (hay needle : List Char) : Bool :=
  isPrefixB needle hay ||
    match hay with
    | [] => false
    | _ :: t => containsSub t needle

/-- Substring containment on strings: `sub in s`. -/
def strContains (s sub : String) : Bool :=
  containsSub s.data sub.data

/-- Keyword list of `_is_code_block`. -/
def code_keywords : List String :=
  ["def ", "class ", "import ", "from ", "if ", "for ", "while ", "try ", "except ", "return "]

/-- `_is_code_block`: any code keyword occurs, or both a newline and a
fence marker occur. -/
def _is_code_block (text : String) : Bool :=
  code_keywords.any (fun k => strContains text k) ||
    (strContains text "\n" && strContains text "```")

/-- The recognized SDK field set of `_looks_like_sdk_response`. -/
def sdkKeys : List String := ["content", "additional_kwargs", "response_metadata"]

/-- `_looks_like_sdk_response`: `None` is not SDK-like; a mapping is
SDK-like when its key set meets the recognized set; any other object is
SDK-like when it has one of the recognized attributes (plain strings,
numbers, lists and stream-only objects have none of them). -/
def _looks_like_sdk_response : PyVal → Bool
  | .none => false
  | .dict kvs => kvs.any (fun kv => sdkKeys.contains kv.1)
  | .obj attrs => attrs.any (fun kv => sdkKeys.contains kv.1)
  | _ => false

/-- Mapping/attribute lookup: first binding of `k` (Python dicts have
unique keys, so this is exact). -/
def dlookup (kvs : List (String × PyVal)) (k : String) : Option PyVal :=
  (kvs.find? (fun kv => kv.1 == k)).map (·.2)

mutual

/-- `_to_primitive`, recursively converting a value to JSON-serializable
primitives: scalars pass through, mappings and iterables recurse, an object
is converted through its attribute dictionary (`vars`), and a stream-only
object has an empty attribute dictionary. -/
def _to_primitive : PyVal → Prim
  | .none => .null
  | .str s => .str s
  | .int n => .int n
  | .bool b => .bool b
  | .dict kvs => .dict (toPrimKVs kvs)
  | .pylist xs => .arr (toPrimList xs)
  | .obj attrs => .dict (toPrimKVs attrs)
  | .streamer _ => .dict []

def toPrimList : List PyVal → List Prim
  | [] => []
  | x :: xs => _to_primitive x :: toPrimList xs

def toPrimKVs : List (String × PyVal) → List (String × Prim)
  | [] => []
  | (k, v) :: rest => (k, _to_primitive v) :: toPrimKVs rest

end

/-- Escaping of one character inside a JSON string (model of the escaping
done by `json.dumps` with `ensure_ascii=False`). -/
def escapeJsonChar (c : Char) : String :=
  if c = '"' then "\\\""
  else if c = '\\' then "\\\\"
  else if c = '\n' then "\\n"
  else if c = '\t' then "\\t"
  else if c = '\r' then "\\r"
  else String.singleton c

/-- Escaping of a whole JSON string body. -/
def escapeJson (s : String) : String :=
  String.join (s.data.map escapeJsonChar)

mutual

/-- Compact `json.dumps` (default separators). -/
def jsonDumps : Prim → String
  | .null => "null"
  | .str s => "\"" ++ escapeJson s ++ "\""
  | .int n => toString n
  | .bool b => if b then "true" else "false"
  | .arr xs => "[" ++ String.intercalate ", " (jsonDumpsList xs) ++ "]"
  | .dict kvs => "\x7b" ++ String.intercalate ", " (jsonDumpsKVs kvs) ++ "\x7d"

def jsonDumpsList : List Prim → List String
  | [] => []
  | x :: xs => jsonDumps x :: jsonDumpsList xs

def jsonDumpsKVs : List (String × Prim) → List String
  | [] => []
  | (k, v) :: rest => ("\"" ++ escapeJson k ++ "\": " ++ jsonDumps v) :: jsonDumpsKVs rest

end

/-- `2 * n` spaces, the indentation of `json.dumps` with `indent=2`. -/
def jsonPad (n : Nat) : String :=
  String.mk (List.replicate (2 * n) ' ')

mutual

/-- Pretty `json.dumps` with `indent=2` at nesting level `lvl`; empty
containers print without inner newlines, as the library does. -/
def jsonIndent (lvl : Nat) : Prim → String
  | .null => "null"
  | .str s => "\"" ++ escapeJson s ++ "\""
  | .int n => toString n
  | .bool b => if b then "true" else "false"
  | .arr [] => "[" ++ "]"
  | .arr (x :: xs) =>
    "[" ++ ("\n" ++ String.intercalate ",\n" (jsonIndentList (lvl + 1) (x :: xs)) ++
      "\n" ++ jsonPad lvl ++ "]")
  | .dict [] => "\x7b" ++ "\x7d"
  | .dict (kv :: kvs) =>
    "\x7b" ++ ("\n" ++ String.intercalate ",\n" (jsonIndentKVs (lvl + 1) (kv :: kvs)) ++
      "\n" ++ jsonPad lvl ++ "\x7d")

def jsonIndentList (lvl : Nat) : List Prim → List String
  | [] => []
  | x :: xs => (jsonPad lvl ++ jsonIndent lvl x) :: jsonIndentList lvl xs

def jsonIndentKVs (lvl : Nat) : List (String × Prim) → List String
  | [] => []
  | (k, v) :: rest =>
    (jsonPad lvl ++ "\"" ++ escapeJson k ++ "\": " ++ jsonIndent lvl v) :: jsonIndentKVs lvl rest

end

mutual

/-- Loose model of the `str` builtin on the remaining shapes (an external
collaborator; no claim depends on its exact text). -/
def pyStr : PyVal → String
  | .none => "None"
  | .str s => s
  | .int n => toString n
  | .bool b => if b then "True" else "False"
  | .pylist xs => "[" ++ String.intercalate ", " (pyStrList xs) ++ "]"
  | .dict _ => "\x7b" ++ "...\x7d"
  | .obj _ => "<object>"
  | .streamer _ => "<object>"

def pyStrList : List PyVal → List String
  | [] => []
  | x :: xs => pyStr x :: pyStrList xs

end

/-- The sentinel prefixed to serialized structured payloads. -/
def STRUCTURED_PREFIX : String := "[__STRUCTURED__]"

/-- Priority field list used when building a structured payload. -/
def payloadFields : List String :=
  ["content", "additional_kwargs", "response_metadata", "type", "id", "name"]

/-- Second payload loop: remaining fields are appended in order, skipping
keys already present in the payload. -/
def addRestFields (payload : List (String × Prim)) : List (String × PyVal) → List (String × Prim)
  | [] => payload
  | (k, v) :: rest =>
    if payload.any (fun p => p.1 == k) then addRestFields payload rest
    else addRestFields (payload ++ [(k, _to_primitive v)]) rest

/-- Payload of a structured chunk: the priority fields present, in priority
order, then all remaining fields in source order. -/
def _build_payload (kvs : List (String × PyVal)) : List (String × Prim) :=
  addRestFields
    (payloadFields.filterMap fun k => (dlookup kvs k).map fun v => (k, _to_primitive v))
    kvs

/-- Wrap a detected code block in fence markers. -/
def wrapCode (s : String) : String :=
  "```" ++ "\n" ++ s ++ "\n" ++ "```"

/-- The `content`/`text`/`message` attribute probe of `_safe_extract_text`:
first attribute present and non-`None` wins; a string value goes through
the code-block heuristic, any other value through `str`. -/
def probeAttrs (attrs : List (String × PyVal)) : List String → Option String
  | [] => Option.none
  | a :: rest =>
    match dlookup attrs a with
    | Option.none => probeAttrs attrs rest
    | some PyVal.none => probeAttrs attrs rest
    | some (PyVal.str s) => some (if _is_code_block s then wrapCode s else s)
    | some v => some (pyStr v)

/-- `_safe_extract_text`: extract display text from one response piece.
`None` gives the empty string; a string passes through (fenced content
unchanged, detected code wrapped); an SDK-like mapping or object is
serialized with the structured sentinel; any other mapping is
pretty-printed; other objects fall back to a probed text attribute or
their `str` form (again subject to the code-block heuristic). -/
def _safe_extract_text : PyVal → String
  | .none => ""
  | .str s =>
    if strContains s "```" then s
    else if _is_code_block s then wrapCode s
    else s
  | .dict kvs =>
    if _looks_like_sdk_response (.dict kvs) then
      STRUCTURED_PREFIX ++ jsonDumps (.dict (_build_payload kvs))
    else
      jsonIndent 0 (_to_primitive (.dict kvs))
  | .obj attrs =>
    if _looks_like_sdk_response (.obj attrs) then
      STRUCTURED_PREFIX ++ jsonDumps (.dict (_build_payload attrs))
    else
      match probeAttrs attrs ["content", "text", "message"] with
      | some r => r
      | Option.none =>
        let t := pyStr (.obj attrs)
        if _is_code_block t then wrapCode t else t
  | v =>
    let t := pyStr v
    if _is_code_block t then wrapCode t else t

/-- Python exceptions as the normalizer distinguishes them: a `TypeError`
whose message matches `unexpected keyword argument ...` (carrying that
keyword), any other `TypeError`, and any other exception. -/
inductive PyErr where
  | typeErrorKw (kw : String)
  | typeErrorOther (msg : String)
  | otherError (msg : String)
deriving DecidableEq, Repr

/-- `isinstance(e, TypeError)`. -/
def PyErr.isTypeError : PyErr → Bool
  | .typeErrorKw _ => true
  | .typeErrorOther _ => true
  | .otherError _ => false

/-- `str(e)`. -/
def PyErr.msg : PyErr → String
  | .typeErrorKw kw => "got an unexpected keyword argument \x27" ++ kw ++ "\x27"
  | .typeErrorOther m => m
  | .otherError m => m

/-- `_invoke_with_kw_retry`: call `f` with the current keyword set; on a
`TypeError` naming an unexpected keyword that is among the passed keywords,
drop it and retry recursively; any other failure propagates.  (`f` is the
bound call `invoke_fn(messages, stream=..., **kwargs)` with only the kwargs
varying; keyword values never influence control flow, so kwargs are their
name list.) -/
def _invoke_with_kw_retry (f : List String → Except PyErr PyVal)
    (kwargs : List String) : Except PyErr PyVal :=
  match f kwargs with
  | .ok r => .ok r
  | .error e =>
    match e with
    | .typeErrorKw kw =>
      if h : kw ∈ kwargs then _invoke_with_kw_retry f (kwargs.erase kw)
      else .error (.typeErrorKw kw)
    | e => .error e
termination_by kwargs.length
decreasing_by
  simp only [List.length_erase_of_mem h]
  exact Nat.sub_lt (List.length_pos.mpr (List.ne_nil_of_mem h)) Nat.one_pos

/-- `_iter_from_stream_response`: an iterable (other than strings, bytes
and mappings) is iterated; a non-iterable with a callable `stream` is
iterated through it; anything else becomes a one-element iteration. -/
def _iter_from_stream_response : PyVal → List PyVal
  | .pylist xs => xs
  | .streamer xs => xs
  | v => [v]

/-- One emitted chunk, tagged by its emission site: ordinary text, or the
terminal error chunk (rendered with the stream-error sentinel). -/
inductive Chunk where
  | text (s : String)
  | streamError (msg : String)
deriving DecidableEq, Repr

/-- The string actually yielded for a chunk. -/
def Chunk.render : Chunk → String
  | .text s => s
  | .streamError m => "[__STREAM_ERROR__]" ++ m

/-- The LLM client, as `chat_stream` uses it: the `invoke` entry point
(first argument: the `stream=True` flag) and the optional candidate
streaming methods looked up by name (`None` models a missing attribute).
Candidate methods are called with the kwargs, or without them on the
`TypeError` retry (the empty list). -/
structure LLMClient where
  invoke : Bool → List String → Except PyErr PyVal
  method : String → Option (List String → Except PyErr PyVal)

/-- The fixed candidate method name order probed by `chat_stream`. -/
def candidateMethods : List String :=
  ["stream_invoke", "invoke_stream", "stream", "streaming_invoke"]

/-- Step 2 of `chat_stream`: probe each candidate name in order; a present
method is called with the kwargs; on success its iterated pieces are
extracted and emitted; on a `TypeError` it is retried without kwargs; any
other failure moves to the next candidate.  `none` means every candidate
failed or was absent. -/
def tryCandidates (llm : LLMClient) (kwargs : List String) :
    List String → Option (List Chunk)
  | [] => Option.none
  | c :: rest =>
    match llm.method c with
    | Option.none => tryCandidates llm kwargs rest
    | some f =>
      match f kwargs with
      | .ok resp =>
        some ((_iter_from_stream_response resp).map fun p => .text (_safe_extract_text p))
      | .error e =>
        if e.isTypeError then
          match f [] with
          | .ok resp =>
            some ((_iter_from_stream_response resp).map fun p => .text (_safe_extract_text p))
          | .error _ => tryCandidates llm kwargs rest
        else tryCandidates llm kwargs rest

/-- The body of `chat_stream` inside its outer `try`: the three strategies
in order.  Returns the chunks yielded and the exception escaping to the
outer handler, if any (a step-1 or step-2 failure is swallowed and falls
through; only the step-3 call can raise out of the body). -/
def chatStreamBody (llm : LLMClient) (kwargs : List String) :
    List Chunk × Option PyErr :=
  match _invoke_with_kw_retry (llm.invoke true) kwargs with
  | .ok resp =>
    ((_iter_from_stream_response resp).map (fun p => .text (_safe_extract_text p)),
      Option.none)
  | .error _ =>
    match tryCandidates llm kwargs candidateMethods with
    | some chunks => (chunks, Option.none)
    | Option.none =>
      match _invoke_with_kw_retry (llm.invoke false) kwargs with
      | .ok resp => ([.text (_safe_extract_text resp)], Option.none)
      | .error e => ([], some e)

/-- `chat_stream` as the finite chunk sequence it yields: the missing-client
guard first, then the body, with an escaping exception converted by the
outer handler into one final stream-error chunk. -/
def chat_stream (llmOpt : Option LLMClient) (kwargs : List String) : List Chunk :=
  match llmOpt with
  | Option.none => [.streamError "LLM not initialized (ChatGroq missing)."]
  | some llm =>
    let r := chatStreamBody llm kwargs
    r.1 ++
      (match r.2 with
       | some e => [.streamError e.msg]
       | Option.none => [])

/-- A run of the keyword-removal recursion that ends in success: either the
call succeeds outright, or it reports an unexpected keyword that is among
the passed kwargs and the chain continues on the reduced kwargs. -/
inductive RetryChain (f : List String → Except PyErr PyVal) :
    List String → PyVal → Prop where
  | done : ∀ {S r}, f S = .ok r → RetryChain f S r
  | step : ∀ {S k r}, f S = .error (.typeErrorKw k) → k ∈ S →
      RetryChain f (S.erase k) r → RetryChain f S r

/-- Demo client for the keyword-retry witness: streaming rejects the
`temperature` keyword once, then succeeds. -/
def retryDemoLLM : LLMClient where
  invoke := fun stream ks =>
    if stream then
      if ks.contains "temperature" then .error (.typeErrorKw "temperature")
      else .ok (.pylist [.str "Hel", .str "lo"])
    else .error (.otherError "no sync")
  method := fun _ => Option.none

/-- Demo client for the sync-fallback witness: every streaming entry point
fails, the non-streaming call succeeds. -/
def fallbackDemoLLM : LLMClient where
  invoke := fun stream _ =>
    if stream then .error (.otherError "stream down")
    else .ok (.str "result")
  method := fun _ => Option.none

/-! ## Chat-history save logic (`chatbot2.0/streamlit_frontend.py`)

Per send interaction the frontend appends the user message and the
assistant reply to `message_history`, then overwrites the thread record in
`chat_history` with a title computed from the message that triggered the
save (`user_input`), in both the streaming-success and the fallback path.
Timestamps are irrelevant to the claims and set to placeholder values. -/

structure ChatMsg where
  role : String
  content : String
  ts : String
deriving DecidableEq, Repr

structure ChatRecord where
  title : String
  messages : List ChatMsg
  timestamp : Nat
deriving DecidableEq, Repr

/-- The title computed at both save sites:
`user_input[:60] + ("..." if len(user_input) > 60 else "")`. -/
def chatTitle (user_input : String) : String :=
  user_input.take 60 ++ (if user_input.length > 60 then "..." else "")

/-- One send interaction: append the user message, append the assistant
reply, rewrite the thread record. -/
def sendTurn (hist : List ChatMsg) (user_input assistant_reply : String)
    (t : Nat) : List ChatMsg × ChatRecord :=
  let h2 := (hist ++ [⟨"user", user_input, ""⟩]) ++ [⟨"assistant", assistant_reply, ""⟩]
  (h2, ⟨chatTitle user_input, h2, t⟩)

/-- A session on one thread: process the turns in order; the stored record
is the one written by the final save. -/
def runSession : List ChatMsg → List (String × String) → Option ChatRecord
  | _, [] => Option.none
  | hist, (u, a) :: rest =>
    let s := sendTurn hist u a 0
    match runSession s.1 rest with
    | some r => some r
    | Option.none => some s.2

/-- Content of the first user message of a conversation. -/
def firstUserContent (msgs : List ChatMsg) : Option String :=
  ((msgs.filter fun m => m.role == "user").head?).map (·.content)

/-! # Theorems -/

/-! ## C3: score extraction -/

theorem searchScore_eq_none_iff (cs : List Char) :
    searchScore cs = none ↔ ∀ i, matchScoreAt (cs.drop i) = none := by
  induction cs with
  | nil =>
    simp only [searchScore, List.drop_nil]
    constructor
    · intro h _; exact h
    · intro h; exact h 0
  | cons c cs ih =>
    constructor
    · intro h i
      cases i with
      | zero =>
        simp only [searchScore] at h
        cases hm : matchScoreAt (c :: cs) with
        | none => simpa using hm
        | some v => rw [hm] at h; exact absurd h (by simp)
      | succ j =>
        simp only [searchScore] at h
        cases hm : matchScoreAt (c :: cs) with
        | none =>
          rw [hm] at h
          exact (ih.mp h) j
        | some v => rw [hm] at h; exact absurd h (by simp)
    · intro h
      have h0 := h 0
      simp only [List.drop_zero] at h0
      simp only [searchScore, h0]
      exact ih.mpr (fun j => h (j + 1))

theorem searchScore_leftmost (cs : List Char) (i x : Nat)
    (hm : matchScoreAt (cs.drop i) = some x)
    (hmin : ∀ j < i, matchScoreAt (cs.drop j) = none) :
    searchScore cs = some x := by
  induction i generalizing cs with
  | zero =>
    simp only [List.drop_zero] at hm
    cases cs with
    | nil => simpa [searchScore] using hm
    | cons c cs' => simp [searchScore, hm]
  | succ j ih =>
    cases cs with
    | nil =>
      have h0 := hmin 0 (Nat.succ_pos j)
      simp only [List.drop_nil] at h0 hm
      rw [h0] at hm
      exact absurd hm (by simp)
    | cons c cs' =>
      have h0 := hmin 0 (Nat.succ_pos j)
      simp only [List.drop_zero] at h0
      simp only [searchScore, h0]
      exact ih cs' (by simpa using hm)
        (fun k hk => by simpa using hmin (k + 1) (Nat.succ_lt_succ hk))

/-- **C3.** Score extraction: if the text contains the pattern
`Score: X/10` (case-insensitively), extraction returns the `X` of the
leftmost occurrence; if no position matches, extraction returns the
default `5`.  Extraction is a total function, so it never raises. -/
theorem extract_score_spec (s : String) :
    ((∀ i ≤ s.data.length, matchScoreAt (s.data.drop i) = none) →
      extract_score s = 5) ∧
    (∀ i x, matchScoreAt (s.data.drop i) = some x →
      (∀ j < i, matchScoreAt (s.data.drop j) = none) →
      extract_score s = x) := by
  constructor
  · intro h
    unfold extract_score
    have hall : ∀ i, matchScoreAt (s.data.drop i) = none := by
      intro i
      by_cases hi : i ≤ s.data.length
      · exact h i hi
      · rw [List.drop_eq_nil_of_le (le_of_lt (lt_of_not_le hi))]
        have := h s.data.length le_rfl
        rwa [List.drop_length] at this
    rw [(searchScore_eq_none_iff s.data).mpr hall]
    rfl
  · intro i x hm hmin
    unfold extract_score
    rw [searchScore_leftmost s.data i x hm hmin]
    rfl

/-- Witness for C3: `"Score: 7/10"` matches at position 0 and extraction
yields `7`; `"no score here"` matches nowhere and extraction yields `5`. -/
theorem extract_score_spec_witness :
    extract_score "Score: 7/10" = 7 ∧ extract_score "no score here" = 5 :=
  ⟨(extract_score_spec "Score: 7/10").2 0 7 (by decide)
      (fun j hj => absurd hj (Nat.not_lt_zero j)),
    (extract_score_spec "no score here").1 (by decide)⟩

/-! ## C1: join barrier -/

theorem validFrom_decompose (t₁ : List GNode) :
    ∀ (done t₂ : List GNode) (n : GNode),
      validFrom done (t₁ ++ n :: t₂) = true →
      n ∉ done ∧ n ∉ t₁ ∧ ∀ p ∈ preds n, p ∈ done ∨ p ∈ t₁ := by
  induction t₁ with
  | nil =>
    intro done t₂ n h
    simp only [List.nil_append, validFrom, Bool.and_eq_true, decide_eq_true_eq] at h
    exact ⟨h.1.1, by simp, fun p hp => Or.inl (h.1.2 p hp)⟩
  | cons m t₁ ih =>
    intro done t₂ n h
    simp only [List.cons_append, validFrom, Bool.and_eq_true, decide_eq_true_eq] at h
    obtain ⟨hnd, hn, hps⟩ := ih (m :: done) t₂ n h.2
    refine ⟨fun hd => hnd (List.mem_cons_of_mem _ hd), ?_, ?_⟩
    · intro hmem
      rcases List.mem_cons.mp hmem with rfl | hmem
      · exact hnd (List.mem_cons_self _ _)
      · exact hn hmem
    · intro p hp
      rcases hps p hp with hd | ht
      · rcases List.mem_cons.mp hd with rfl | hd
        · exact Or.inr (List.mem_cons_self _ _)
        · exact Or.inl hd
      · exact Or.inr (List.mem_cons_of_mem _ ht)

theorem validFrom_nodup (t : List GNode) :
    ∀ done : List GNode, validFrom done t = true →
      (∀ x ∈ t, x ∉ done) ∧ t.Nodup := by
  induction t with
  | nil => intro done _; exact ⟨by simp, List.nodup_nil⟩
  | cons n rest ih =>
    intro done h
    simp only [validFrom, Bool.and_eq_true, decide_eq_true_eq] at h
    obtain ⟨⟨hnd, _⟩, hrest⟩ := h
    obtain ⟨hmem, hnodup⟩ := ih (n :: done) hrest
    constructor
    · intro x hx
      rcases List.mem_cons.mp hx with rfl | hx
      · exact hnd
      · intro hxd
        exact hmem x hx (List.mem_cons_of_mem _ hxd)
    · refine List.nodup_cons.mpr ⟨fun hn => ?_, hnodup⟩
      exact hmem n hn (List.mem_cons_self _ _)

theorem completeTrace_perm (t : List GNode) (h : completeTrace t = true) :
    t.Perm allNodes := by
  simp only [completeTrace, Bool.and_eq_true, decide_eq_true_eq] at h
  have hnd := (validFrom_nodup t [] h.1).2
  refine (List.perm_ext_iff_of_nodup hnd (by decide)).mpr fun a => ⟨fun _ => ?_, fun _ => ?_⟩
  · cases a <;> simp [allNodes]
  · exact h.2 a (by cases a <;> simp [allNodes])

theorem runNode_keeps_language (llm : String → String) (s : UPSCState) (n : GNode)
    (h : s.language_feedback.isSome = true) :
    (runNode llm s n).language_feedback.isSome = true := by
  cases n <;> simp [runNode, h]

theorem runNode_keeps_analysis (llm : String → String) (s : UPSCState) (n : GNode)
    (h : s.analysis_feedback.isSome = true) :
    (runNode llm s n).analysis_feedback.isSome = true := by
  cases n <;> simp [runNode, h]

theorem runNode_keeps_clarity (llm : String → String) (s : UPSCState) (n : GNode)
    (h : s.clarity_feedback.isSome = true) :
    (runNode llm s n).clarity_feedback.isSome = true := by
  cases n <;> simp [runNode, h]

theorem foldl_language_some (llm : String → String) (t : List GNode) :
    ∀ s : UPSCState,
      (s.language_feedback.isSome = true ∨ GNode.evaluate_language ∈ t) →
      ((t.foldl (runNode llm) s).language_feedback).isSome = true := by
  induction t with
  | nil => intro s h; simpa using h.resolve_right (by simp)
  | cons n rest ih =>
    intro s h
    rw [List.foldl_cons]
    rcases h with hs | hmem
    · exact ih _ (Or.inl (runNode_keeps_language llm s n hs))
    · rcases List.mem_cons.mp hmem with rfl | hmem
      · exact ih _ (Or.inl (by simp [runNode]))
      · exact ih _ (Or.inr hmem)

theorem foldl_analysis_some (llm : String → String) (t : List GNode) :
    ∀ s : UPSCState,
      (s.analysis_feedback.isSome = true ∨ GNode.evaluate_analysis ∈ t) →
      ((t.foldl (runNode llm) s).analysis_feedback).isSome = true := by
  induction t with
  | nil => intro s h; simpa using h.resolve_right (by simp)
  | cons n rest ih =>
    intro s h
    rw [List.foldl_cons]
    rcases h with hs | hmem
    · exact ih _ (Or.inl (runNode_keeps_analysis llm s n hs))
    · rcases List.mem_cons.mp hmem with rfl | hmem
      · exact ih _ (Or.inl (by simp [runNode]))
      · exact ih _ (Or.inr hmem)

theorem foldl_clarity_some (llm : String → String) (t : List GNode) :
    ∀ s : UPSCState,
      (s.clarity_feedback.isSome = true ∨ GNode.evaluate_thought ∈ t) →
      ((t.foldl (runNode llm) s).clarity_feedback).isSome = true := by
  induction t with
  | nil => intro s h; simpa using h.resolve_right (by simp)
  | cons n rest ih =>
    intro s h
    rw [List.foldl_cons]
    rcases h with hs | hmem
    · exact ih _ (Or.inl (runNode_keeps_clarity llm s n hs))
    · rcases List.mem_cons.mp hmem with rfl | hmem
      · exact ih _ (Or.inl (by simp [runNode]))
      · exact ih _ (Or.inr hmem)

/-- **C1.** Join barrier: on every complete run (any interleaving the
scheduler allows), `final_evaluation` executes exactly once, and wherever it
occurs in the order, all three dimension evaluators occur strictly before
it, so that at that point all three feedback texts exist in the state. -/
theorem final_evaluation_join_barrier (llm : String → String) (essay : String)
    (t : List GNode) (hc : completeTrace t = true) :
    t.count GNode.final_evaluation = 1 ∧
    ∀ t₁ t₂, t = t₁ ++ GNode.final_evaluation :: t₂ →
      GNode.evaluate_language ∈ t₁ ∧ GNode.evaluate_analysis ∈ t₁ ∧
      GNode.evaluate_thought ∈ t₁ ∧
      (t₁.foldl (runNode llm) (initState essay)).language_feedback.isSome = true ∧
      (t₁.foldl (runNode llm) (initState essay)).analysis_feedback.isSome = true ∧
      (t₁.foldl (runNode llm) (initState essay)).clarity_feedback.isSome = true := by
  have hperm := completeTrace_perm t hc
  constructor
  · rw [hperm.count_eq]
    decide
  · intro t₁ t₂ heq
    have hv : validFrom [] (t₁ ++ GNode.final_evaluation :: t₂) = true := by
      have := hc
      simp only [completeTrace, Bool.and_eq_true] at this
      rw [heq] at this
      exact this.1
    obtain ⟨-, -, hps⟩ := validFrom_decompose t₁ [] t₂ GNode.final_evaluation hv
    have hl : GNode.evaluate_language ∈ t₁ :=
      (hps _ (by simp [preds])).resolve_left (by simp)
    have ha : GNode.evaluate_analysis ∈ t₁ :=
      (hps _ (by simp [preds])).resolve_left (by simp)
    have hth : GNode.evaluate_thought ∈ t₁ :=
      (hps _ (by simp [preds])).resolve_left (by simp)
    exact ⟨hl, ha, hth,
      foldl_language_some llm t₁ _ (Or.inr hl),
      foldl_analysis_some llm t₁ _ (Or.inr ha),
      foldl_clarity_some llm t₁ _ (Or.inr hth)⟩

/-- Witness for C1 at the sequential trace with a constant oracle. -/
theorem final_evaluation_join_barrier_witness :
    seqTrace.count GNode.final_evaluation = 1 ∧
    ∀ t₁ t₂, seqTrace = t₁ ++ GNode.final_evaluation :: t₂ →
      GNode.evaluate_language ∈ t₁ ∧ GNode.evaluate_analysis ∈ t₁ ∧
      GNode.evaluate_thought ∈ t₁ ∧
      (t₁.foldl (runNode (fun _ => "ok")) (initState "e")).language_feedback.isSome = true ∧
      (t₁.foldl (runNode (fun _ => "ok")) (initState "e")).analysis_feedback.isSome = true ∧
      (t₁.foldl (runNode (fun _ => "ok")) (initState "e")).clarity_feedback.isSome = true :=
  final_evaluation_join_barrier (fun _ => "ok") "e" seqTrace (by decide)

/-! ## C2: three scores and their range -/

theorem scores_length_after (llm : String → String) (t : List GNode) :
    ∀ s : UPSCState,
      (t.foldl (runNode llm) s).individual_scores.length =
        s.individual_scores.length + t.countP isDimNode := by
  induction t with
  | nil => intro s; simp
  | cons n rest ih =>
    intro s
    rw [List.foldl_cons, ih, List.countP_cons]
    cases n <;> simp [runNode, isDimNode] <;> omega

theorem scores_mem_after (llm : String → String) (t : List GNode) :
    ∀ (s : UPSCState) (x : Nat),
      x ∈ (t.foldl (runNode llm) s).individual_scores →
      x ∈ s.individual_scores ∨ ∃ p, x = extract_score (llm p) := by
  induction t with
  | nil => intro s x hx; exact Or.inl (by simpa using hx)
  | cons n rest ih =>
    intro s x hx
    rw [List.foldl_cons] at hx
    rcases ih (runNode llm s n) x hx with hmem | hex
    · cases n with
      | final_evaluation => exact Or.inl (by simpa [runNode] using hmem)
      | evaluate_language =>
        rcases (by simpa [runNode] using hmem :
            x ∈ s.individual_scores ∨
              x = (evaluate_essay_dimension llm s.essay "language").2) with h | h
        · exact Or.inl h
        · exact Or.inr ⟨_, by simpa [evaluate_essay_dimension] using h⟩
      | evaluate_analysis =>
        rcases (by simpa [runNode] using hmem :
            x ∈ s.individual_scores ∨
              x = (evaluate_essay_dimension llm s.essay "depth of analysis").2) with h | h
        · exact Or.inl h
        · exact Or.inr ⟨_, by simpa [evaluate_essay_dimension] using h⟩
      | evaluate_thought =>
        rcases (by simpa [runNode] using hmem :
            x ∈ s.individual_scores ∨
              x = (evaluate_essay_dimension llm s.essay "clarity of thought").2) with h | h
        · exact Or.inl h
        · exact Or.inr ⟨_, by simpa [evaluate_essay_dimension] using h⟩
    · exact Or.inr hex

/-- **C2 (amended).** Every complete run, for every oracle, produces
exactly three scores, each a natural number (hence `≥ 0`) — this part is
unconditional.  The upper bound `10` holds exactly under the proviso that
the extracted value of every oracle response is at most `10`: extraction
performs no clamping. -/
theorem essay_scores_bounds (llm : String → String) (essay : String)
    (t : List GNode) (hc : completeTrace t = true) :
    (runTrace llm essay t).individual_scores.length = 3 ∧
    ((∀ p, extract_score (llm p) ≤ 10) →
      ∀ x ∈ (runTrace llm essay t).individual_scores, x ≤ 10) := by
  constructor
  · rw [runTrace, scores_length_after, (completeTrace_perm t hc).countP_eq]
    show ([] : List Nat).length + allNodes.countP isDimNode = 3
    decide
  · intro hllm x hx
    rcases scores_mem_after llm t (initState essay) x hx with h | ⟨p, rfl⟩
    · exact absurd h (by simp [initState])
    · exact hllm p

/-- Witness for C2 (amended) at the sequential trace: the three-scores part
with an unbounded oracle answering `Score: 15/10`, the bounded part with an
oracle answering `Score: 7/10`. -/
theorem essay_scores_bounds_witness :
    (runTrace (fun _ => "Score: 15/10") "e" seqTrace).individual_scores.length = 3 ∧
    ∀ x ∈ (runTrace (fun _ => "Score: 7/10") "e" seqTrace).individual_scores,
      x ≤ 10 :=
  ⟨(essay_scores_bounds (fun _ => "Score: 15/10") "e" seqTrace (by decide)).1,
    (essay_scores_bounds (fun _ => "Score: 7/10") "e" seqTrace (by decide)).2
      (fun _ => by show extract_score "Score: 7/10" ≤ 10; decide)⟩

/-- **C2 (counterexample).** The interval `[0,10]` of the claim fails on
the code: a response containing `Score: 15/10` makes extraction return
`15`, so a complete run can produce an out-of-range score. -/
theorem essay_scores_counterexample :
    completeTrace seqTrace = true ∧
    ¬ (∀ x ∈ (runTrace (fun _ => "Score: 15/10") "essay" seqTrace).individual_scores,
        x ≤ 10) := by
  decide

/-! ## C4: average score -/

/-- **C4.** In the aggregation node, `avg_score` is `0` on an empty score
collection and the exact arithmetic mean (sum over length) otherwise. -/
theorem average_score_spec (llm : String → String) (s : UPSCState) :
    (s.individual_scores = [] →
      (runNode llm s .final_evaluation).avg_score = some 0) ∧
    (s.individual_scores ≠ [] →
      (runNode llm s .final_evaluation).avg_score =
        some ((s.individual_scores.sum : ℚ) / (s.individual_scores.length : ℚ))) := by
  constructor
  · intro h; simp [runNode, averageOf, h]
  · intro h; simp [runNode, averageOf, h]

/-- Witness for C4: mean of `[7, 8, 9]` is `8`, and the empty collection
yields `0`. -/
theorem average_score_spec_witness :
    (runNode (fun _ => "o") { essay := "e", individual_scores := [7, 8, 9] }
      GNode.final_evaluation).avg_score = some 8 ∧
    (runNode (fun _ => "o") { essay := "e" }
      GNode.final_evaluation).avg_score = some 0 := by
  constructor
  · rw [(average_score_spec (fun _ => "o")
      { essay := "e", individual_scores := [7, 8, 9] }).2 (by simp)]
    norm_num
  · exact (average_score_spec (fun _ => "o") { essay := "e" }).1 rfl

/-! ## C5/C6: keyword retry and synchronous fallback -/

theorem kw_retry_ok (f : List String → Except PyErr PyVal) (kwargs : List String)
    (r : PyVal) (h : f kwargs = .ok r) :
    _invoke_with_kw_retry f kwargs = .ok r := by
  unfold _invoke_with_kw_retry
  rw [h]

theorem kw_retry_error_other (f : List String → Except PyErr PyVal)
    (kwargs : List String) (m : String) (h : f kwargs = .error (.otherError m)) :
    _invoke_with_kw_retry f kwargs = .error (.otherError m) := by
  unfold _invoke_with_kw_retry
  rw [h]

theorem retryChain_result (f : List String → Except PyErr PyVal)
    (S : List String) (r : PyVal) (h : RetryChain f S r) :
    _invoke_with_kw_retry f S = .ok r := by
  induction h with
  | done hf =>
    unfold _invoke_with_kw_retry
    rw [hf]
  | step hf hk _ ih =>
    unfold _invoke_with_kw_retry
    rw [hf]
    simpa [hk] using ih

/-- **C5.** If the streaming invocation, after recursively removing each
unsupported keyword reported by a `TypeError` (each being among the passed
kwargs), eventually succeeds with response `r`, then `chat_stream` emits
exactly the normalized chunk sequence of that successful call: the
extracted text of each iterated piece of `r`, in order, and nothing else. -/
theorem chat_stream_kw_retry (llm : LLMClient) (kwargs : List String) (r : PyVal)
    (h : RetryChain (llm.invoke true) kwargs r) :
    chat_stream (some llm) kwargs =
      (_iter_from_stream_response r).map (fun p => Chunk.text (_safe_extract_text p)) := by
  simp [chat_stream, chatStreamBody, retryChain_result _ _ _ h]

/-- Witness for C5: a client that rejects the `temperature` keyword once
and then streams two pieces. -/
theorem chat_stream_kw_retry_witness :
    chat_stream (some retryDemoLLM) ["temperature"] =
      [Chunk.text "Hel", Chunk.text "lo"] := by
  rw [chat_stream_kw_retry retryDemoLLM ["temperature"]
    (.pylist [.str "Hel", .str "lo"])
    (RetryChain.step rfl (by decide) (RetryChain.done rfl))]
  rfl

theorem tryCandidates_none (llm : LLMClient) (kwargs : List String)
    (cands : List String)
    (h : ∀ c ∈ cands, ∀ f, llm.method c = some f →
      ∃ e1, f kwargs = .error e1 ∧
        (e1.isTypeError = true → ∃ e2, f [] = .error e2)) :
    tryCandidates llm kwargs cands = Option.none := by
  induction cands with
  | nil => rfl
  | cons c rest ih =>
    have ihr := ih (fun c hc => h c (List.mem_cons_of_mem _ hc))
    cases hm : llm.method c with
    | none => simp [tryCandidates, hm, ihr]
    | some f =>
      obtain ⟨e1, he1, hte⟩ := h c (List.mem_cons_self _ _) f hm
      by_cases ht : e1.isTypeError = true
      · obtain ⟨e2, he2⟩ := hte ht
        simp [tryCandidates, hm, he1, ht, he2, ihr]
      · simp [tryCandidates, hm, he1, ht, ihr]

/-- **C6.** If the streaming invocation fails, every present candidate
streaming method fails (with kwargs, and on the `TypeError` retry also
without them), and the non-streaming call succeeds with `r`, then
`chat_stream` emits exactly one chunk: the extracted text of `r`. -/
theorem chat_stream_sync_fallback (llm : LLMClient) (kwargs : List String)
    (r : PyVal) (e : PyErr)
    (h1 : _invoke_with_kw_retry (llm.invoke true) kwargs = .error e)
    (h2 : ∀ c ∈ candidateMethods, ∀ f, llm.method c = some f →
      ∃ e1, f kwargs = .error e1 ∧
        (e1.isTypeError = true → ∃ e2, f [] = .error e2))
    (h3 : _invoke_with_kw_retry (llm.invoke false) kwargs = .ok r) :
    chat_stream (some llm) kwargs = [Chunk.text (_safe_extract_text r)] := by
  simp [chat_stream, chatStreamBody, h1, h3, tryCandidates_none llm kwargs _ h2]

/-- Witness for C6: a client whose streaming call fails outright, has no
candidate methods, and answers `"result"` synchronously. -/
theorem chat_stream_sync_fallback_witness :
    chat_stream (some fallbackDemoLLM) [] = [Chunk.text "result"] := by
  rw [chat_stream_sync_fallback fallbackDemoLLM [] (.str "result")
    (.otherError "stream down")
    (kw_retry_error_other _ _ _ rfl)
    (fun c _ f hf => absurd hf (by simp [fallbackDemoLLM]))
    (kw_retry_ok _ _ _ rfl)]
  rfl

/-! ## C7/C10: terminal errors and total error handling -/

theorem tryCandidates_chunks_text (llm : LLMClient) (kwargs : List String) :
    ∀ (cands : List String) (chunks : List Chunk),
      tryCandidates llm kwargs cands = some chunks →
      ∀ c ∈ chunks, ∃ s, c = Chunk.text s := by
  intro cands
  induction cands with
  | nil => intro chunks h; exact absurd h (by simp [tryCandidates])
  | cons c rest ih =>
    intro chunks h ck hck
    rw [tryCandidates] at h
    cases hm : llm.method c with
    | none =>
      simp only [hm] at h
      exact ih chunks h ck hck
    | some f =>
      simp only [hm] at h
      cases hc : f kwargs with
      | ok resp =>
        simp only [hc, Option.some.injEq] at h
        subst h
        obtain ⟨p, _, hp⟩ := List.mem_map.mp hck
        exact ⟨_, hp.symm⟩
      | error e1 =>
        simp only [hc] at h
        by_cases ht : e1.isTypeError = true
        · rw [if_pos ht] at h
          cases hc2 : f [] with
          | ok resp =>
            simp only [hc2, Option.some.injEq] at h
            subst h
            obtain ⟨p, _, hp⟩ := List.mem_map.mp hck
            exact ⟨_, hp.symm⟩
          | error e2 =>
            simp only [hc2] at h
            exact ih chunks h ck hck
        · rw [if_neg ht] at h
          exact ih chunks h ck hck

theorem body_chunks_text (llm : LLMClient) (kwargs : List String) :
    ∀ c ∈ (chatStreamBody llm kwargs).1, ∃ s, c = Chunk.text s := by
  intro c hc
  rw [chatStreamBody] at hc
  cases h1 : _invoke_with_kw_retry (llm.invoke true) kwargs with
  | ok resp =>
    simp only [h1] at hc
    obtain ⟨p, _, hp⟩ := List.mem_map.mp hc
    exact ⟨_, hp.symm⟩
  | error e =>
    simp only [h1] at hc
    cases h2 : tryCandidates llm kwargs candidateMethods with
    | some chunks =>
      simp only [h2] at hc
      exact tryCandidates_chunks_text llm kwargs candidateMethods chunks h2 c hc
    | none =>
      simp only [h2] at hc
      cases h3 : _invoke_with_kw_retry (llm.invoke false) kwargs with
      | ok resp =>
        simp only [h3] at hc
        exact ⟨_, (List.mem_singleton.mp hc)⟩
      | error e2 =>
        simp only [h3] at hc
        exact absurd hc (by simp)

theorem text_append_err (cs : List Chunk) (em : String)
    (hcs : ∀ c ∈ cs, ∃ s, c = Chunk.text s) :
    ∀ l₁ (m : String) l₂,
      cs ++ [Chunk.streamError em] = l₁ ++ Chunk.streamError m :: l₂ → l₂ = [] := by
  induction cs with
  | nil =>
    intro l₁ m l₂ h
    have hlen := congrArg List.length h
    simp [List.length_append] at hlen
    exact List.length_eq_zero.mp (by omega)
  | cons c cs' ih =>
    intro l₁ m l₂ h
    cases l₁ with
    | nil =>
      obtain ⟨s, hs⟩ := hcs c (List.mem_cons_self _ _)
      rw [List.nil_append] at h
      injection h with h1 _
      exact absurd (hs ▸ h1) (by simp)
    | cons x l₁' =>
      rw [List.cons_append] at h
      injection h with _ htail
      exact ih (fun d hd => hcs d (List.mem_cons_of_mem _ hd)) l₁' m l₂ htail

/-- **C7.** In every chunk sequence `chat_stream` produces, a stream-error
chunk is terminal: nothing whatsoever follows it (hence there is at most
one, carrying the error description). -/
theorem stream_error_terminal (llmOpt : Option LLMClient) (kwargs : List String) :
    ∀ l₁ (m : String) l₂,
      chat_stream llmOpt kwargs = l₁ ++ Chunk.streamError m :: l₂ → l₂ = [] := by
  cases llmOpt with
  | none =>
    intro l₁ m l₂ h
    rw [chat_stream] at h
    have hlen := congrArg List.length h
    simp [List.length_append] at hlen
    exact List.length_eq_zero.mp (by omega)
  | some llm =>
    intro l₁ m l₂ h
    simp only [chat_stream] at h
    cases h2 : (chatStreamBody llm kwargs).2 with
    | none =>
      simp only [h2, List.append_nil] at h
      obtain ⟨s, hs⟩ := body_chunks_text llm kwargs (Chunk.streamError m)
        (h ▸ List.mem_append_right l₁ (List.mem_cons_self _ _))
      exact absurd hs (by simp)
    | some e =>
      simp only [h2] at h
      exact text_append_err _ _ (body_chunks_text llm kwargs) l₁ m l₂ h

/-- Witness for C7 at the uninitialized-client error chunk. -/
theorem stream_error_terminal_witness : ([] : List Chunk) = [] :=
  stream_error_terminal Option.none [] []
    "LLM not initialized (ChatGroq missing)." [] rfl

/-- **C10.** `chat_stream` is a total function into chunk sequences (the
embedding of its outer exception handler): an uninitialized client yields
exactly the stream-error chunk, and for every client and kwargs the output
is either all ordinary text chunks, or text chunks followed by one final
stream-error chunk carrying the description of the internally raised
exception — never a propagated exception. -/
theorem chat_stream_no_raise (kwargs : List String) :
    chat_stream Option.none kwargs =
      [Chunk.streamError "LLM not initialized (ChatGroq missing)."] ∧
    ∀ llm : LLMClient,
      (∀ c ∈ chat_stream (some llm) kwargs, ∃ s, c = Chunk.text s) ∨
      (∃ (cs : List Chunk) (e : PyErr),
        chat_stream (some llm) kwargs = cs ++ [Chunk.streamError e.msg] ∧
        ∀ c ∈ cs, ∃ s, c = Chunk.text s) := by
  refine ⟨rfl, fun llm => ?_⟩
  cases h2 : (chatStreamBody llm kwargs).2 with
  | none =>
    left
    intro c hc
    simp only [chat_stream, h2, List.append_nil] at hc
    exact body_chunks_text llm kwargs c hc
  | some e =>
    right
    exact ⟨(chatStreamBody llm kwargs).1, e, by simp only [chat_stream, h2],
      body_chunks_text llm kwargs⟩

/-- Witness for C10: the uninitialized-client case at empty kwargs. -/
theorem chat_stream_no_raise_witness :
    chat_stream Option.none [] =
      [Chunk.streamError "LLM not initialized (ChatGroq missing)."] :=
  (chat_stream_no_raise []).1

/-! ## C8: structured-chunk detection -/

theorem looks_like_sdk_dict_iff (kvs : List (String × PyVal)) :
    _looks_like_sdk_response (.dict kvs) = true ↔ ∃ kv ∈ kvs, kv.1 ∈ sdkKeys := by
  simp [_looks_like_sdk_response, List.any_eq_true, List.elem_iff]

theorem jsonIndent_dict_head (lvl : Nat) (l : List (String × Prim)) :
    ∃ rest, (jsonIndent lvl (.dict l)).data = '{' :: rest := by
  cases l with
  | nil => exact ⟨['}'], rfl⟩
  | cons kv kvs =>
    refine ⟨("\n" ++ String.intercalate ",\n" (jsonIndentKVs (lvl + 1) (kv :: kvs)) ++
      "\n" ++ jsonPad lvl ++ "\x7d").data, ?_⟩
    rw [jsonIndent, String.data_append]
    rfl

/-- **C8.** Chunk text extraction on mappings: if any recognized key
(`content`, `additional_kwargs`, `response_metadata`) is present, the
result is the serialized payload (priority fields first, remaining fields
appended) prefixed with the structured sentinel; if no recognized key is
present, the result is the pretty-printed primitive form, which does not
carry the sentinel prefix. -/
theorem safe_extract_structured_spec (kvs : List (String × PyVal)) :
    ((∃ kv ∈ kvs, kv.1 ∈ sdkKeys) →
      _safe_extract_text (.dict kvs) =
        STRUCTURED_PREFIX ++ jsonDumps (.dict (_build_payload kvs))) ∧
    ((∀ kv ∈ kvs, kv.1 ∉ sdkKeys) →
      _safe_extract_text (.dict kvs) = jsonIndent 0 (_to_primitive (.dict kvs)) ∧
      ¬ List.IsPrefix STRUCTURED_PREFIX.data (_safe_extract_text (.dict kvs)).data) := by
  constructor
  · intro hex
    rw [_safe_extract_text, if_pos ((looks_like_sdk_dict_iff kvs).mpr hex)]
  · intro hall
    have hnot : _looks_like_sdk_response (.dict kvs) = false := by
      rw [Bool.eq_false_iff]
      intro hT
      obtain ⟨kv, hkv, hk⟩ := (looks_like_sdk_dict_iff kvs).mp hT
      exact hall kv hkv hk
    have heq : _safe_extract_text (.dict kvs) = jsonIndent 0 (_to_primitive (.dict kvs)) := by
      rw [_safe_extract_text, if_neg (by simp [hnot])]
    refine ⟨heq, ?_⟩
    rw [heq]
    obtain ⟨rest, hrest⟩ := jsonIndent_dict_head 0 (toPrimKVs kvs)
    rw [show _to_primitive (.dict kvs) = .dict (toPrimKVs kvs) from rfl, hrest]
    rintro ⟨t, ht⟩
    cases hsp : STRUCTURED_PREFIX.data with
    | nil => exact absurd hsp (by decide)
    | cons a as =>
      rw [hsp, List.cons_append] at ht
      have ha : STRUCTURED_PREFIX.data.head? = some '[' := by decide
      rw [hsp] at ha
      injection ha with ha
      injection ht with ht1 _
      rw [ha] at ht1
      exact absurd ht1 (by decide)

set_option maxRecDepth 4096 in
/-- Witness for C8: a mapping holding `response_metadata` is sentinel-
prefixed; a mapping with only an unrecognized key is pretty-printed. -/
theorem safe_extract_structured_spec_witness :
    _safe_extract_text (.dict [("response_metadata", PyVal.str "m")]) =
      STRUCTURED_PREFIX ++
        jsonDumps (.dict (_build_payload [("response_metadata", PyVal.str "m")])) ∧
    _safe_extract_text (.dict [("foo", PyVal.int 1)]) =
      jsonIndent 0 (_to_primitive (.dict [("foo", PyVal.int 1)])) := by
  constructor
  · exact (safe_extract_structured_spec _).1
      ⟨("response_metadata", PyVal.str "m"), by simp, by simp [sdkKeys]⟩
  · exact ((safe_extract_structured_spec _).2
      (by intro kv hkv; simp at hkv; simp [hkv, sdkKeys])).1

/-! ## C9: chat titles -/

theorem runSession_append_some (l : List (String × String)) (u a : String) :
    ∀ hist : List ChatMsg, ∃ r, runSession hist (l ++ [(u, a)]) = some r := by
  induction l with
  | nil => intro hist; exact ⟨_, rfl⟩
  | cons t₀ ts ih =>
    intro hist
    obtain ⟨u₀, a₀⟩ := t₀
    obtain ⟨r, hr⟩ := ih (sendTurn hist u₀ a₀ 0).1
    exact ⟨r, by rw [List.cons_append, runSession, hr]⟩

/-- **C9 (amended).** The record stored by a session is titled from the
user message that triggered the final save (the most recent user message),
truncated to 60 characters with `...` appended exactly when that message
exceeds 60 characters — not from the first user message of the
conversation. -/
theorem chat_title_amended (turns : List (String × String)) (u a : String) :
    ∀ (hist : List ChatMsg) (r : ChatRecord),
      runSession hist (turns ++ [(u, a)]) = some r →
      r.title = u.take 60 ++ (if u.length > 60 then "..." else "") := by
  induction turns with
  | nil =>
    intro hist r h
    rw [List.nil_append, runSession] at h
    simp only [runSession] at h
    injection h with h
    rw [← h]
    rfl
  | cons t₀ ts ih =>
    intro hist r h
    obtain ⟨u₀, a₀⟩ := t₀
    rw [List.cons_append, runSession] at h
    obtain ⟨r', hr'⟩ := runSession_append_some ts u a (sendTurn hist u₀ a₀ 0).1
    rw [hr'] at h
    injection h with h
    exact h ▸ ih _ r' hr'

set_option maxRecDepth 8192 in
/-- Witness for C9 (amended): a one-turn session on message `"hi"`. -/
theorem chat_title_amended_witness :
    (ChatRecord.mk "hi" [⟨"user", "hi", ""⟩, ⟨"assistant", "y", ""⟩] 0).title =
      "hi".take 60 ++ (if "hi".length > 60 then "..." else "") :=
  chat_title_amended [] "hi" "y" []
    (ChatRecord.mk "hi" [⟨"user", "hi", ""⟩, ⟨"assistant", "y", ""⟩] 0) (by decide)

set_option maxRecDepth 8192 in
/-- **C9 (counterexample).** After a two-turn conversation with user
messages `"a"` then `"b"`, the stored title is `"b"` while the first user
message of the conversation is `"a"`: the claim that the title is computed
from the first user message fails. -/
theorem chat_title_counterexample :
    ((runSession [] [("a", "x"), ("b", "y")]).getD ⟨"", [], 0⟩).title = "b" ∧
    firstUserContent
      ((runSession [] [("a", "x"), ("b", "y")]).getD ⟨"", [], 0⟩).messages = some "a" ∧
    chatTitle "a" ≠ "b" := by
  decide

end AgenticAI
